import Mathlib

/-!
Verification development for the G-Maa audio-orchestration core
(`src/llm_engine.py`).  The Python source is shallowly embedded as pure
Lean functions; stateful code becomes explicit state passing on `SysState`,
and external collaborators (the TTS engine, the audio sink) are modelled by
ghost parameters whose values the theorems quantify over.
-/

/-! ## Python string primitives used by `SmartPhraseBuffer` -/

/-- Whitespace test used by Python `str.strip()` / `str.split()`. -/
def isPyWS (c : Char) : Bool := c.isWhitespace

/-- Python `s.strip()`: remove leading and trailing whitespace. -/
def pyStrip (s : String) : String :=
  String.mk (((s.data.dropWhile isPyWS).reverse.dropWhile isPyWS).reverse)

/-- Accumulator loop for `pySplit`: splits a character list on runs of
whitespace, discarding empty pieces (Python `str.split()` with no
separator). -/
def wordsAux : List Char → List Char → List String
  | [], acc => if acc.isEmpty then [] else [String.mk acc.reverse]
  | c :: cs, acc =>
    if isPyWS c then
      if acc.isEmpty then wordsAux cs []
      else String.mk acc.reverse :: wordsAux cs []
    else wordsAux cs (c :: acc)

/-- Python `s.split()` (no separator argument). -/
def pySplit (s : String) : List String := wordsAux s.data []

/-- Python `" ".join(ws)`. -/
def pyJoin : List String → String
  | [] => ""
  | [w] => w
  | w :: ws => w ++ " " ++ pyJoin ws

/-- Python `s[-1]` for the nonempty strings it is applied to. -/
def lastChar (s : String) : Char := s.data.getLastD ' '

/-- Python `s[0]` for the nonempty strings it is applied to. -/
def firstChar (s : String) : Char := s.data.headD ' '

/-- Python `s.lower()` (the source only applies it to ASCII words). -/
def pyLower (s : String) : String := String.mk (s.data.map Char.toLower)

/-! ## `SmartPhraseBuffer` -/

/-- The conjunction set of `SmartPhraseBuffer._try_dispatch`. -/
def conjunctionWords : List String := ["and", "but", "or", "so", "because"]

/-- One position of the backward scan in
`SmartPhraseBuffer._find_safe_split_point`: the value returned if one of
the three split rules fires at index `i` (comma-terminated word, lone
conjunction, preposition followed by a capitalised word), else `none`. -/
def splitRuleAt (words : List String) (i : Nat) : Option Nat :=
  let word := words.getD i ""
  if lastChar word = ',' then some (i + 1)
  else if pyLower word ∈ ["and", "but", "or"] then some i
  else if i + 1 < words.length ∧ (firstChar (words.getD (i + 1) "")).isUpper ∧
      pyLower word ∈ ["in", "at", "to", "from", "of", "on"] then some i
  else none

/-- The loop `for i in range(len(words) - 1, 0, -1)` of
`_find_safe_split_point`: checks indices `i, i-1, ..., 1`, returning the
value of the first rule that fires, else `0`. -/
def scanBack (words : List String) : Nat → Nat
  | 0 => 0
  | i + 1 =>
    match splitRuleAt words (i + 1) with
    | some r => r
    | none => scanBack words i

/-- `SmartPhraseBuffer._find_safe_split_point`. -/
def findSafeSplitPoint (words : List String) : Nat :=
  scanBack words (words.length - 1)

/-- Outcome of one `_try_dispatch` call: the texts passed to the dispatch
callback (in order) and the final value of `self.buffer`. -/
structure DispatchResult where
  dispatched : List String
  buffer : String
deriving DecidableEq, Repr

/-- `SmartPhraseBuffer._try_dispatch(force)`, as a pure function of the
current buffer.  `_do_dispatch(text)` is inlined as "emit `text`, set the
buffer to `""`" (the silence-task cancellation it also performs is timing
machinery with no further state). -/
def tryDispatch (buffer : String) (force : Bool) : DispatchResult :=
  let text := pyStrip buffer
  if text = "" then ⟨[], buffer⟩
  else
    let words := pySplit text
    let wordCount := words.length
    if !force && decide (wordCount < 2) then ⟨[], buffer⟩
    else if lastChar text ∈ ['.', '!', '?', ','] then ⟨[text], ""⟩
    else if !force && decide (pyLower (words.getLastD "") ∈ conjunctionWords) then ⟨[], buffer⟩
    else if 8 ≤ wordCount ∨ force = true then
      let sp := findSafeSplitPoint words
      if 0 < sp then ⟨[pyJoin (words.take sp)], pyJoin (words.drop sp) ++ " "⟩
      else ⟨[text], ""⟩
    else ⟨[], buffer⟩

/-! ## `G_Maa_Engine`: jobs, events, state -/

/-- The value obtained by `await task` for a chunk job in
`_playback_worker`: the task may have been cancelled, raised, returned
`None` (degenerate text or generation failure), returned a path that no
longer exists, or produced an artifact file of a given byte size.
`playOk` records whether the external playback subprocess runs without
raising (`aplay`/`afplay` is outside the repository). -/
inductive JobResult where
  | cancelled
  | taskError
  | noAudio
  | fileMissing
  | artifact (size : Nat) (playOk : Bool)
deriving DecidableEq, Repr

/-- A chunk job as held by `self.audio_queue`.  `finishTime` is a ghost
timestamp for when its background generation completes; the playback loop
never reads it (it always awaits the head), so every theorem about the
loop holds for all completion orders.  `done` records whether the task has
already completed at the moment `interrupt()` drains it. -/
structure Job where
  text : String
  finishTime : Nat
  done : Bool
  result : JobResult
deriving DecidableEq, Repr

/-- Observable side effects of the engine: invocations of the external
mute/unmute hooks, playback of an artifact (the loop reached the playback
phase for that job), an invocation of the segmenter's dispatch callback,
and a `task.cancel()` call. -/
inductive Event where
  | muteCall
  | unmuteCall
  | play (j : Job)
  | dispatch (text : String)
  | cancelJob (j : Job)
deriving DecidableEq, Repr

/-- Which of the two optional hook callbacks were passed to
`G_Maa_Engine.__init__`. -/
structure Config where
  hasMute : Bool
  hasUnmute : Bool
deriving DecidableEq, Repr

/-- The configuration used by `main.py`, which passes both callbacks. -/
def mainConfig : Config := ⟨true, true⟩

/-- A conversation-history role. -/
inductive Role where
  | user
  | assistant
deriving DecidableEq, Repr

/-- The mutable engine state: the FIFO audio queue, the `is_speaking`
flag, the segmenter buffer, the conversation history, and a ghost log of
all events emitted so far. -/
structure SysState where
  queue : List Job
  speaking : Bool
  buffer : String
  history : List (Role × String)
  log : List Event
deriving DecidableEq, Repr

/-- The engine state right after `start()`: empty queue, not speaking,
empty buffer, empty history. -/
def initState : SysState := ⟨[], false, "", [], []⟩

/-- Python exceptions the embedding distinguishes. -/
inductive PyError where
  | typeError
deriving DecidableEq, Repr

/-- The literal list `[".", ",", "!", "?", ":", ";", "-", "...", "\x22", "\x27"]`
from `_generate_speech_file`. -/
def punctuationTokens : List String :=
  [".", ",", "!", "?", ":", ";", "-", "...", "\x22", "\x27"]

/-- Python `s.replace('\n', ' ')`. -/
def pyReplaceNL (s : String) : String :=
  String.mk (s.data.map (fun c => if c = '\n' then ' ' else c))

/-- `G_Maa_Engine._generate_speech_file` up to the external TTS call: the
text is stripped and newline-cleaned; if it is shorter than 2 characters
or a bare punctuation token the task returns `None` (no audio).  The
outcome of the external TTS engine and file system on any other text is
the ghost parameter `g`. -/
def jobResultOf (g : String → JobResult) (text : String) : JobResult :=
  let t := pyReplaceNL (pyStrip text)
  if t.data.length < 2 ∨ t ∈ punctuationTokens then .noAudio
  else g t

/-- `G_Maa_Engine._queue_tts_generation(text)`: creates the generation
task for `text` (freshly created, hence not yet done). The caller appends
it to the queue. -/
def mkJob (g : String → JobResult) (text : String) : Job :=
  ⟨text, 0, false, jobResultOf g text⟩

/-! ## The playback worker -/

/-- Events emitted by `if self.unmute_callback: self.unmute_callback()`. -/
def unmuteEvents (cfg : Config) : List Event :=
  if cfg.hasUnmute then [.unmuteCall] else []

/-- Events emitted by `if self.mute_callback: self.mute_callback()`. -/
def muteEvents (cfg : Config) : List Event :=
  if cfg.hasMute then [.muteCall] else []

/-- One iteration of the `while` loop of `_playback_worker` when a job `j`
is at the head of the queue, given the current `is_speaking` flag `sp`.
Returns the new flag and the emitted events.  Steps, as in the source:
strategic unmute if speaking; await the head (cancellation, task error,
`None` result and missing file all `continue`); discard artifacts below
100 bytes; otherwise mute (the flag is necessarily false at that point),
set `is_speaking`, and run the player subprocess — on a playback error the
flag is reset to false with no unmute. -/
def iterStep (cfg : Config) (j : Job) (sp : Bool) : Bool × List Event :=
  let ev1 := if sp then unmuteEvents cfg else []
  match j.result with
  | .cancelled => (false, ev1)
  | .taskError => (false, ev1)
  | .noAudio => (false, ev1)
  | .fileMissing => (false, ev1)
  | .artifact size playOk =>
    if size < 100 then (false, ev1)
    else if playOk then (true, ev1 ++ muteEvents cfg ++ [.play j])
    else (false, ev1 ++ muteEvents cfg ++ [.play j])

/-- One iteration of the `_playback_worker` loop on the full state: if the
queue is empty, unmute when speaking and poll; otherwise pop the head and
process it with `iterStep`. -/
def workerStep (cfg : Config) (s : SysState) : SysState × List Event :=
  match s.queue with
  | [] =>
    if s.speaking then
      ({s with speaking := false, log := s.log ++ unmuteEvents cfg}, unmuteEvents cfg)
    else (s, [])
  | j :: rest =>
    let r := iterStep cfg j s.speaking
    ({s with queue := rest, speaking := r.1, log := s.log ++ r.2}, r.2)

/-! ## `interrupt()` -/

/-- Result of an engine operation: the state afterwards, the events it
emitted, and the exception it raised, if any (state mutations made before
the raise are kept, as in Python). -/
structure OpResult where
  state : SysState
  events : List Event
  err : Option PyError
deriving DecidableEq, Repr

/-- `G_Maa_Engine.interrupt()`: drains the queue, calling `task.cancel()`
on every job not yet done; clears the segmenter buffer and calls
`self.phrase_buffer._do_dispatch("")`, which invokes the dispatch callback
(`_queue_tts_generation`) on `""` and thereby enqueues a fresh empty-text
job; then runs `if self.mute_callback: self.unmute_callback()` — note the
gate tests the *mute* callback while the *unmute* callback is called, so
with a mute hook but no unmute hook this raises `TypeError` (calling
`None`) before `is_speaking` is reset — and finally sets `is_speaking`
to false. -/
def interruptRun (g : String → JobResult) (cfg : Config) (s : SysState) : OpResult :=
  let cancels := s.queue.filterMap
    (fun j => if j.done then none else some (Event.cancelJob j))
  let baseEvents := cancels ++ [Event.dispatch ""]
  let s1 : SysState :=
    { queue := [mkJob g ""], speaking := s.speaking, buffer := "",
      history := s.history, log := s.log ++ baseEvents }
  if cfg.hasMute then
    if cfg.hasUnmute then
      ⟨{s1 with speaking := false, log := s1.log ++ [Event.unmuteCall]},
        baseEvents ++ [Event.unmuteCall], none⟩
    else ⟨s1, baseEvents, some PyError.typeError⟩
  else ⟨{s1 with speaking := false}, baseEvents, none⟩

/-! ## `generate_and_speak` -/

/-- The canned fallback phrase of `generate_and_speak`'s exception
handler. -/
def fallbackText : String :=
  "I" ++ "\x27" ++ "m having trouble thinking right now."

/-- Outcome of the external LLM streaming call: a finished token stream,
or an exception raised by the client. -/
inductive LLMOutcome where
  | ok (tokens : List String)
  | fail
deriving DecidableEq, Repr

/-- Appends newly dispatched phrases to the queue as generation jobs
(each dispatch invokes `_queue_tts_generation`). -/
def applyDispatch (g : String → JobResult) (s : SysState) (force : Bool) : SysState :=
  let r := tryDispatch s.buffer force
  { s with buffer := r.buffer,
           queue := s.queue ++ r.dispatched.map (mkJob g),
           log := s.log ++ r.dispatched.map Event.dispatch }

/-- One token of the streaming loop in `generate_and_speak`:
`phrase_buffer.add_token(token)` (append to the buffer) followed by
`phrase_buffer._try_dispatch()`. -/
def feedToken (g : String → JobResult) (s : SysState) (tok : String) : SysState :=
  applyDispatch g {s with buffer := s.buffer ++ tok} false

/-- The history update at the end of a successful `generate_and_speak`
turn: append the user and assistant turns, then
`if len(self.history) > 8: self.history = self.history[-8:]`. -/
def historyStep (h : List (Role × String)) (u a : String) : List (Role × String) :=
  let h2 := h ++ [(Role.user, u), (Role.assistant, a)]
  if 8 < h2.length then h2.drop (h2.length - 8) else h2

/-- `G_Maa_Engine.generate_and_speak(user_input)`.  On a successful stream,
every token is fed through the phrase buffer, a final forced flush runs,
and the history is extended and trimmed.  If the LLM call raises, the
handler executes `await self._queue_tts_generation("I'm having trouble
thinking right now.")`: `_queue_tts_generation` is a plain synchronous
method, so the fallback job is enqueued and the method returns `None`,
after which `await None` raises `TypeError`, which propagates (the history
is left untouched). -/
def generateAndSpeak (g : String → JobResult) (llm : LLMOutcome)
    (userInput : String) (s : SysState) : SysState × Option PyError :=
  match llm with
  | .ok tokens =>
    let s1 := tokens.foldl (feedToken g) s
    let s2 := applyDispatch g s1 true
    ({s2 with history := historyStep s2.history userInput (String.join tokens)}, none)
  | .fail =>
    ({s with queue := s.queue ++ [mkJob g fallbackText],
             log := s.log ++ [Event.dispatch fallbackText]},
      some PyError.typeError)

/-! ## Remaining definitions: traces, reachability, history predicates -/

/-- Is this event an invocation of the external mute/unmute hooks? -/
def isHookEvent : Event → Bool
  | .muteCall => true
  | .unmuteCall => true
  | _ => false

/-- The last mute/unmute hook invocation recorded in an event log, if
any. -/
def lastHook : List Event → Option Event
  | [] => none
  | e :: r =>
    match lastHook r with
    | some x => some x
    | none => if isHookEvent e then some e else none

/-- Is this event a playback of an artifact? -/
def isPlayEvent : Event → Bool
  | .play _ => true
  | _ => false

/-- A job reaches the playback phase exactly when awaiting it yields an
existing artifact of at least 100 bytes. -/
def playableJob (j : Job) : Bool :=
  match j.result with
  | .artifact n _ => decide (100 ≤ n)
  | _ => false

/-- An interleaving action on the engine: a phrase submission through
`_queue_tts_generation`, or one iteration of the playback loop. -/
inductive Act where
  | submit (j : Job)
  | tick
deriving DecidableEq, Repr

/-- Applies one action to a state together with the accumulated event
trace. -/
def applyAct (cfg : Config) : SysState × List Event → Act → SysState × List Event
  | (s, evs), .submit j =>
    ({s with queue := s.queue ++ [j], log := s.log ++ [.dispatch j.text]},
      evs ++ [.dispatch j.text])
  | (s, evs), .tick =>
    let r := workerStep cfg s
    (r.1, evs ++ r.2)

/-- Runs an arbitrary interleaving of submissions and playback-loop
iterations from the initial state. -/
def runActs (cfg : Config) (acts : List Act) : SysState × List Event :=
  acts.foldl (applyAct cfg) (initState, [])

/-- The jobs submitted by an action sequence, in submission order. -/
def submittedJobs : List Act → List Job
  | [] => []
  | .submit j :: r => j :: submittedJobs r
  | .tick :: r => submittedJobs r

/-- A TTS ghost for which generation always yields no audio (used where
the value is irrelevant). -/
def gNone : String → JobResult := fun _ => JobResult.noAudio

/-- The states of the playback loop and interrupt controller reachable
under `main.py`'s configuration, where every submitted job satisfies
`allowed`: the initial state, submissions, playback-loop iterations, and
`interrupt()` calls. -/
inductive Reaches (allowed : Job → Prop) : SysState → Prop where
  | init : Reaches allowed initState
  | submit (s : SysState) (j : Job) : allowed j → Reaches allowed s →
      Reaches allowed
        {s with queue := s.queue ++ [j], log := s.log ++ [Event.dispatch j.text]}
  | tick (s : SysState) : Reaches allowed s →
      Reaches allowed (workerStep mainConfig s).1
  | intr (s : SysState) : Reaches allowed s →
      Reaches allowed (interruptRun gNone mainConfig s).state

/-- No restriction on submitted jobs. -/
def univJob : Job → Prop := fun _ => True

/-- Jobs whose playback, if reached, does not raise (excludes the
playback-failure branch). -/
def noPlayFail (j : Job) : Prop := ∀ n, j.result ≠ JobResult.artifact n false

/-- Every job in the queue satisfies `noPlayFail`. -/
def QueueNoPF (s : SysState) : Prop :=
  ∀ j ∈ s.queue, ∀ n, j.result ≠ JobResult.artifact n false

/-- The opposite conversation role. -/
def flipRole : Role → Role
  | .user => .assistant
  | .assistant => .user

/-- Does a turn list alternate roles starting with `r`? -/
def altFrom : Role → List (Role × String) → Bool
  | _, [] => true
  | r, t :: ts => decide (t.1 = r) && altFrom (flipRole r) ts

/-- The pair of turns one completed conversation round appends. -/
def pairTurns (p : String × String) : List (Role × String) :=
  [(Role.user, p.1), (Role.assistant, p.2)]

/-- The history after a sequence of completed conversation rounds,
starting from the empty history. -/
def histFold (turns : List (String × String)) : List (Role × String) :=
  turns.foldl (fun h p => historyStep h p.1 p.2) []

/-- A demonstration job whose playback subprocess fails. -/
def pfDemoJob : Job := ⟨"Okay dear.", 0, false, JobResult.artifact 200 false⟩

/-- A demonstration job that plays successfully. -/
def pfGoodJob : Job := ⟨"Hello dear.", 0, false, JobResult.artifact 200 true⟩

/-- The state after submitting job `j` to the fresh engine. -/
def pfSubmitted (j : Job) : SysState :=
  {initState with queue := initState.queue ++ [j],
                  log := initState.log ++ [Event.dispatch j.text]}

/-- The state after the playback loop processes a freshly submitted job
whose playback fails. -/
def pfBadState : SysState := (workerStep mainConfig (pfSubmitted pfDemoJob)).1

/-- The state after the playback loop processes a freshly submitted job
that plays successfully. -/
def pfGoodState : SysState := (workerStep mainConfig (pfSubmitted pfGoodJob)).1

/-- A concrete small-artifact job (40 bytes, below the 100-byte
threshold). -/
def smallJob : Job := ⟨"ok", 0, false, JobResult.artifact 40 true⟩

/-- A fresh engine state with only `smallJob` queued. -/
def smallState : SysState := ⟨[smallJob], false, "", [], []⟩

/-! ## Helper lemmas -/

theorem lastHook_append (l m : List Event) :
    lastHook (l ++ m) =
      match lastHook m with
      | some x => some x
      | none => lastHook l := by
  induction l with
  | nil => cases h : lastHook m <;> simp [h, lastHook]
  | cons e t ih =>
    simp only [List.cons_append, lastHook, List.append_eq]
    rw [ih]
    cases lastHook m <;> cases lastHook t <;> simp

theorem unmute_not_mem_cancels (q : List Job) :
    Event.unmuteCall ∉
      q.filterMap (fun j => if j.done then none else some (Event.cancelJob j)) := by
  simp only [List.mem_filterMap, not_exists]
  intro j h
  obtain ⟨-, h⟩ := h
  by_cases hd : j.done <;> simp [hd] at h

/-- C4: when the LLM streaming call raises, `generate_and_speak` does
enqueue the canned fallback phrase through `_queue_tts_generation`, but it
does not return normally: the handler's `await` of the synchronous
`_queue_tts_generation` (which returns `None`) raises `TypeError`, which
propagates to the caller; the history is left untouched.  This refutes the
claim that no exception reaches the caller. -/
theorem c4_llm_failure_enqueues_fallback_then_raises
    (g : String → JobResult) (u : String) (s : SysState) :
    (generateAndSpeak g .fail u s).1.queue = s.queue ++ [mkJob g fallbackText] ∧
    (generateAndSpeak g .fail u s).2 = some PyError.typeError ∧
    (generateAndSpeak g .fail u s).1.history = s.history := by
  simp [generateAndSpeak]

/-- C9: with `mute_callback == None` and a non-`None` `unmute_callback`,
`interrupt()` never invokes the unmute hook (the gate in the source tests
`self.mute_callback`) while it still resets `is_speaking` to false; with
both callbacks set (`main.py`'s configuration), every interrupt invokes
unmute exactly once. -/
theorem c9_interrupt_unmute_gated_on_mute (g : String → JobResult) (s : SysState) :
    Event.unmuteCall ∉ (interruptRun g ⟨false, true⟩ s).events ∧
    (interruptRun g ⟨false, true⟩ s).state.speaking = false ∧
    (interruptRun g mainConfig s).events.count Event.unmuteCall = 1 := by
  refine ⟨?_, by simp [interruptRun], ?_⟩
  · simp only [interruptRun, Bool.false_eq_true, if_false, List.mem_append]
    rintro (h | h)
    · exact unmute_not_mem_cancels s.queue h
    · simp at h
  · have h0 : (s.queue.filterMap
        (fun j => if j.done then none else some (Event.cancelJob j))).count
          Event.unmuteCall = 0 :=
      List.count_eq_zero.mpr (unmute_not_mem_cancels s.queue)
    simp [interruptRun, mainConfig, List.count_append, h0]

/-- C2 counterexample: the claim says the audio queue is empty after
`interrupt()` returns, but even interrupting the fresh engine leaves one
job in the queue — `interrupt` runs `phrase_buffer._do_dispatch("")`,
whose dispatch callback is `_queue_tts_generation`, which enqueues a task
for the empty phrase. -/
theorem c2_counterexample :
    (interruptRun gNone mainConfig initState).state.queue ≠ [] := by decide

/-- C2 (amended): after `interrupt()` under `main.py`'s configuration, no
exception is raised, every drained job that was not already done has been
cancelled (in queue order), the segmenter buffer is empty and `is_speaking`
is false, the dispatch callback has been invoked exactly once, with `""`,
and the queue holds exactly the resulting empty-text job, whose generation
yields no audio; the unmute hook is invoked once, last. -/
theorem c2_interrupt_resets_state (g : String → JobResult) (s : SysState) :
    (interruptRun g mainConfig s).err = none ∧
    (interruptRun g mainConfig s).state.queue = [mkJob g ""] ∧
    (mkJob g "").result = JobResult.noAudio ∧
    (interruptRun g mainConfig s).state.speaking = false ∧
    (interruptRun g mainConfig s).state.buffer = "" ∧
    (interruptRun g mainConfig s).events =
      (s.queue.filterMap fun j => if j.done then none else some (Event.cancelJob j))
        ++ [Event.dispatch "", Event.unmuteCall] := by
  refine ⟨by simp [interruptRun, mainConfig], by simp [interruptRun, mainConfig],
    rfl, by simp [interruptRun, mainConfig], by simp [interruptRun, mainConfig], ?_⟩
  simp [interruptRun, mainConfig]

/-- C6 counterexample: the second of two back-to-back `interrupt()` calls
does produce side effects beyond an unmute: it invokes the dispatch
callback again (with `""`), so its event list is not just the unmute. -/
theorem c6_counterexample :
    Event.dispatch "" ∈
      (interruptRun gNone mainConfig (interruptRun gNone mainConfig initState).state).events ∧
    (interruptRun gNone mainConfig (interruptRun gNone mainConfig initState).state).events ≠
      [Event.unmuteCall] := by decide

/-- C6 (amended): `interrupt()` is idempotent on the engine state — the
queue (one pending empty-text job), `is_speaking`, buffer and history
after the second call equal those after the first — but the second call is
not free of further side effects: it cancels the empty-text job the first
call enqueued, invokes the dispatch callback once more with `""`
(re-enqueuing an equivalent job), and issues another unmute. -/
theorem c6_interrupt_idempotent_on_state (g : String → JobResult) (s : SysState) :
    (interruptRun g mainConfig (interruptRun g mainConfig s).state).state.queue =
      (interruptRun g mainConfig s).state.queue ∧
    (interruptRun g mainConfig (interruptRun g mainConfig s).state).state.speaking =
      (interruptRun g mainConfig s).state.speaking ∧
    (interruptRun g mainConfig (interruptRun g mainConfig s).state).state.buffer =
      (interruptRun g mainConfig s).state.buffer ∧
    (interruptRun g mainConfig (interruptRun g mainConfig s).state).state.history =
      (interruptRun g mainConfig s).state.history ∧
    (interruptRun g mainConfig (interruptRun g mainConfig s).state).events =
      [Event.cancelJob (mkJob g ""), Event.dispatch "", Event.unmuteCall] := by
  refine ⟨?_, by simp [interruptRun, mainConfig], by simp [interruptRun, mainConfig],
    by simp [interruptRun, mainConfig], ?_⟩ <;>
    simp [interruptRun, mainConfig, mkJob]

/-- C7: when the head job of the playback loop yields an existing artifact
below the 100-byte threshold, the iteration discards it and moves to the
next job: the queue advances, `is_speaking` ends false, the mute hook is
not invoked and nothing is played (at most a strategic unmute is
emitted). -/
theorem c7_small_artifact_discarded (s : SysState) (j : Job) (rest : List Job)
    (n : Nat) (ok : Bool) (hq : s.queue = j :: rest)
    (hr : j.result = JobResult.artifact n ok) (hn : n < 100) :
    (workerStep mainConfig s).1 =
      {s with queue := rest, speaking := false,
              log := s.log ++ (if s.speaking then [Event.unmuteCall] else [])} ∧
    Event.muteCall ∉ (workerStep mainConfig s).2 ∧
    ∀ x, Event.play x ∉ (workerStep mainConfig s).2 := by
  have hev : (workerStep mainConfig s).2 =
      if s.speaking then [Event.unmuteCall] else [] := by
    simp [workerStep, hq, iterStep, hr, hn, unmuteEvents, mainConfig]
  refine ⟨?_, ?_, ?_⟩
  · simp [workerStep, hq, iterStep, hr, hn, unmuteEvents, mainConfig]
  · rw [hev]; cases s.speaking <;> simp
  · intro x; rw [hev]; cases s.speaking <;> simp

/-- C7 witness: the 40-byte artifact for the phrase `"ok"` is discarded by
a fresh loop without any mute or play event. -/
theorem c7_small_artifact_discarded_witness :
    (workerStep mainConfig smallState).1 =
      {smallState with
        queue := [],
        speaking := false,
        log := smallState.log ++ (if smallState.speaking then [Event.unmuteCall] else [])} ∧
    Event.muteCall ∉ (workerStep mainConfig smallState).2 ∧
    ∀ x, Event.play x ∉ (workerStep mainConfig smallState).2 :=
  c7_small_artifact_discarded smallState smallJob [] 40 true rfl rfl (by decide)

/-! ## C8: conversation-history bound, FIFO eviction, alternation -/

theorem feedTokens_history (g : String → JobResult) :
    ∀ (toks : List String) (s : SysState), (toks.foldl (feedToken g) s).history = s.history := by
  intro toks
  induction toks with
  | nil => intro s; rfl
  | cons t ts ih => intro s; rw [List.foldl_cons, ih]; rfl

theorem pairTurns_flatten_length (ps : List (String × String)) :
    ((ps.map pairTurns).flatten).length = 2 * ps.length := by
  induction ps with
  | nil => rfl
  | cons p t ih => simp [pairTurns, ih, Nat.mul_succ]

theorem historyStep_pairForm (ps : List (String × String)) (u a : String)
    (hle : ps.length ≤ 4) :
    ∃ qs : List (String × String), qs.length ≤ 4 ∧
      historyStep ((ps.map pairTurns).flatten) u a = ((qs.map pairTurns).flatten) := by
  have hjoin : ((ps.map pairTurns).flatten) ++ [(Role.user, u), (Role.assistant, a)] =
      (((ps ++ [(u, a)]).map pairTurns).flatten) := by
    simp [pairTurns]
  unfold historyStep
  rw [hjoin]
  by_cases h8 : 8 < (((ps ++ [(u, a)]).map pairTurns).flatten).length
  · rw [if_pos h8]
    have hlen : (((ps ++ [(u, a)]).map pairTurns).flatten).length = 2 * ps.length + 2 := by
      rw [pairTurns_flatten_length]; simp; omega
    have hps4 : ps.length = 4 := by omega
    cases ps with
    | nil => simp at hps4
    | cons q qs =>
      refine ⟨qs ++ [(u, a)], by simp at hps4 ⊢; omega, ?_⟩
      have : ((q :: qs ++ [(u, a)]).map pairTurns).flatten =
          pairTurns q ++ ((qs ++ [(u, a)]).map pairTurns).flatten := by simp
      rw [hlen, this]
      simp at hps4
      simp [pairTurns, hps4]
  · rw [if_neg h8]
    refine ⟨ps ++ [(u, a)], ?_, rfl⟩
    have hlen : (((ps ++ [(u, a)]).map pairTurns).flatten).length = 2 * ps.length + 2 := by
      rw [pairTurns_flatten_length]; simp; omega
    simp
    omega

theorem histFold_pairForm (turns : List (String × String)) :
    ∃ qs : List (String × String), qs.length ≤ 4 ∧
      histFold turns = ((qs.map pairTurns).flatten) := by
  suffices h : ∀ (ts : List (String × String)) (ps : List (String × String)),
      ps.length ≤ 4 →
      ∃ qs : List (String × String), qs.length ≤ 4 ∧
        ts.foldl (fun h p => historyStep h p.1 p.2) ((ps.map pairTurns).flatten) =
          ((qs.map pairTurns).flatten) by
    simpa [histFold] using h turns [] (by simp)
  intro ts
  induction ts with
  | nil => intro ps hle; exact ⟨ps, hle, rfl⟩
  | cons p t ih =>
    intro ps hle
    obtain ⟨qs, hq1, hq2⟩ := historyStep_pairForm ps p.1 p.2 hle
    obtain ⟨rs, hr1, hr2⟩ := ih qs hq1
    exact ⟨rs, hr1, by rw [List.foldl_cons, hq2, hr2]⟩

theorem altFrom_pairTurns_flatten (ps : List (String × String)) :
    altFrom Role.user ((ps.map pairTurns).flatten) = true := by
  induction ps with
  | nil => rfl
  | cons p t ih => simpa [pairTurns, altFrom, flipRole] using ih

/-- C8: the conversation history stays bounded and alternating.  First,
every successful `generate_and_speak` turn updates the history exactly
through `historyStep` (append the user/assistant pair, trim to the last
8 when longer).  Second, after any sequence of completed turns starting
from the empty history, the history holds at most 8 turns and alternates
user, assistant, user, assistant, ...  Third, trimming evicts oldest
first: the new history is always a suffix of the old history plus the
appended pair. -/
theorem c8_history_bounded_and_alternating :
    (∀ (g : String → JobResult) (tokens : List String) (u : String) (s : SysState),
        ((generateAndSpeak g (.ok tokens) u s).1).history =
          historyStep s.history u (String.join tokens)) ∧
    (∀ turns : List (String × String),
        (histFold turns).length ≤ 8 ∧ altFrom Role.user (histFold turns) = true) ∧
    (∀ (h : List (Role × String)) (u a : String),
        List.IsSuffix (historyStep h u a) (h ++ [(Role.user, u), (Role.assistant, a)])) := by
  refine ⟨?_, ?_, ?_⟩
  · intro g tokens u s
    simp [generateAndSpeak, applyDispatch, feedTokens_history]
  · intro turns
    obtain ⟨qs, hq1, hq2⟩ := histFold_pairForm turns
    constructor
    · rw [hq2, pairTurns_flatten_length]; omega
    · rw [hq2]; exact altFrom_pairTurns_flatten qs
  · intro h u a
    simp only [historyStep]
    split
    · exact List.drop_suffix _ _
    · exact List.suffix_refl _

/-! ## C10 and C5: the safe split point -/

theorem scanBack_le (words : List String)
    (hlast : lastChar (words.getD (words.length - 1) "") ∉ ['.', '!', '?', ',']) :
    ∀ i : Nat, i ≤ words.length - 1 → 0 < scanBack words i →
      scanBack words i ≤ words.length - 1 := by
  intro i
  induction i with
  | zero => intro _ h; simp [scanBack] at h
  | succ k ih =>
    intro hle hpos
    cases hr : splitRuleAt words (k + 1) with
    | none =>
      have h2 : scanBack words (k + 1) = scanBack words k := by rw [scanBack, hr]
      rw [h2] at hpos ⊢
      exact ih (by omega) hpos
    | some r =>
      have h2 : scanBack words (k + 1) = r := by rw [scanBack, hr]
      rw [h2] at hpos ⊢
      simp only [splitRuleAt] at hr
      by_cases h1 : lastChar (words.getD (k + 1) "") = ','
      · rw [if_pos h1] at hr
        injection hr with hr
        by_cases hk : k + 2 ≤ words.length - 1
        · omega
        · have hk1 : k + 1 = words.length - 1 := by omega
          rw [hk1] at h1
          exact absurd (by rw [h1]; decide) hlast
      · rw [if_neg h1] at hr
        by_cases h2 : pyLower (words.getD (k + 1) "") ∈ ["and", "but", "or"]
        · rw [if_pos h2] at hr
          injection hr with hr
          omega
        · rw [if_neg h2] at hr
          by_cases h3 : k + 1 + 1 < words.length ∧
              (firstChar (words.getD (k + 1 + 1) "")).isUpper ∧
              pyLower (words.getD (k + 1) "") ∈ ["in", "at", "to", "from", "of", "on"]
          · rw [if_pos h3] at hr
            injection hr with hr
            omega
          · rw [if_neg h3] at hr
            exact absurd hr (by simp)

/-- C10: for a non-empty word list whose last word does not end in one of
`.!?,` (which is how `_try_dispatch` reaches the length-check branch),
whenever `_find_safe_split_point` returns a positive index it lies in
`[1, len(words) - 1]`, so on a rule-4 split both the dispatched word-list
prefix `words[:i]` and the retained remainder `words[i:]` are
non-empty. -/
theorem c10_split_point_in_range (words : List String) (h0 : words ≠ [])
    (hlast : lastChar (words.getD (words.length - 1) "") ∉ ['.', '!', '?', ','])
    (hpos : 0 < findSafeSplitPoint words) :
    1 ≤ findSafeSplitPoint words ∧ findSafeSplitPoint words ≤ words.length - 1 ∧
    words.take (findSafeSplitPoint words) ≠ [] ∧
    words.drop (findSafeSplitPoint words) ≠ [] := by
  have hlen : 0 < words.length := List.length_pos.mpr h0
  have hle : findSafeSplitPoint words ≤ words.length - 1 :=
    scanBack_le words hlast (words.length - 1) le_rfl hpos
  refine ⟨hpos, hle, ?_, ?_⟩
  · intro h
    rw [List.take_eq_nil_iff] at h
    rcases h with h | h
    · omega
    · exact h0 h
  · intro h
    rw [List.drop_eq_nil_iff] at h
    omega

/-- C10 witness: for `["hello", "and", "world"]` the split point is 1,
inside `[1, 2]`, with non-empty prefix and remainder. -/
theorem c10_split_point_in_range_witness :
    1 ≤ findSafeSplitPoint ["hello", "and", "world"] ∧
    findSafeSplitPoint ["hello", "and", "world"] ≤ (["hello", "and", "world"] : List String).length - 1 ∧
    (["hello", "and", "world"] : List String).take (findSafeSplitPoint ["hello", "and", "world"]) ≠ [] ∧
    (["hello", "and", "world"] : List String).drop (findSafeSplitPoint ["hello", "and", "world"]) ≠ [] :=
  c10_split_point_in_range ["hello", "and", "world"] (by decide) (by decide) (by decide)

theorem scanBack_skip (words : List String) :
    ∀ k i : Nat, i ≤ k →
      (∀ j, i < j → j ≤ k → splitRuleAt words j = none) →
      scanBack words k = scanBack words i := by
  intro k
  induction k with
  | zero =>
    intro i h _
    have hi0 : i = 0 := by omega
    rw [hi0]
  | succ n ih =>
    intro i hik hnone
    by_cases hi : i = n + 1
    · rw [hi]
    · have h1 : splitRuleAt words (n + 1) = none := hnone (n + 1) (by omega) le_rfl
      have h2 : scanBack words (n + 1) = scanBack words n := by rw [scanBack, h1]
      rw [h2]
      exact ih i (by omega) (fun j hj1 hj2 => hnone j hj1 (by omega))

/-- C5: the rule-4 safe split.  First, the split point is computed by
scanning backward from the end: if one of the three per-position rules
(split after a comma-terminated word; before a lone `and`/`but`/`or`;
before one of the prepositions `in, at, to, from, of, on` when the next
word is capitalised) fires at `i` and none fires at any later position,
then `_find_safe_split_point` returns that rule's value.  Second, the
claim's concrete scenario: a 10-one-word buffer with word 6 equal to
`"and"` is split by `_try_dispatch` into a dispatched prefix of words 1-5
and a retained buffer of words 6-10 (starting with `"and"`) plus a
separating space. -/
theorem c5_safe_split_backward_scan :
    (∀ (words : List String) (i r : Nat), 0 < i → i < words.length →
        splitRuleAt words i = some r →
        (∀ j, j < words.length → i < j → splitRuleAt words j = none) →
        findSafeSplitPoint words = r) ∧
    tryDispatch "one two three four five and six seven eight nine" false =
      ⟨["one two three four five"], "and six seven eight nine "⟩ := by
  constructor
  · intro words i r hi hilen hsome hnone
    unfold findSafeSplitPoint
    have hs : scanBack words (words.length - 1) = scanBack words i :=
      scanBack_skip words (words.length - 1) i (by omega)
        (fun j hj1 hj2 => hnone j (by omega) hj1)
    rw [hs]
    cases i with
    | zero => omega
    | succ k => rw [scanBack, hsome]
  · decide

/-- C5 witness: the backward-scan characterisation applied to a concrete
word list whose only firing rule is the conjunction at index 1. -/
theorem c5_safe_split_backward_scan_witness :
    findSafeSplitPoint ["quick", "and", "brown"] = 1 :=
  c5_safe_split_backward_scan.1 ["quick", "and", "brown"] 1 1 (by decide) (by decide)
    (by decide) (by decide)

/-! ## C1: ordered playback -/

theorem iterStep_filter_play (cfg : Config) (j : Job) (sp : Bool) :
    (iterStep cfg j sp).2.filter isPlayEvent =
      if playableJob j then [Event.play j] else [] := by
  have hev1 : (if sp then unmuteEvents cfg else []).filter isPlayEvent = [] := by
    cases sp
    · rfl
    · cases h : cfg.hasUnmute <;> simp [unmuteEvents, h, isPlayEvent]
  have hmute : (muteEvents cfg).filter isPlayEvent = [] := by
    cases h : cfg.hasMute <;> simp [muteEvents, h, isPlayEvent]
  rcases j with ⟨t, ft, dn, res⟩
  cases res with
  | artifact n ok =>
    by_cases hn : n < 100
    · have : ¬(100 ≤ n) := by omega
      simp [iterStep, playableJob, hn, hev1, this]
    · have h100 : 100 ≤ n := by omega
      cases ok <;>
        simp [iterStep, playableJob, hn, h100, List.filter_append, hev1, hmute, isPlayEvent]
  | cancelled => simp [iterStep, playableJob, hev1]
  | taskError => simp [iterStep, playableJob, hev1]
  | noAudio => simp [iterStep, playableJob, hev1]
  | fileMissing => simp [iterStep, playableJob, hev1]

theorem runActs_invariant (cfg : Config) :
    ∀ (acts : List Act) (s : SysState) (evs : List Event) (processed : List Job),
      evs.filter isPlayEvent = (processed.filter playableJob).map Event.play →
      ∃ p2 : List Job,
        p2 ++ (acts.foldl (applyAct cfg) (s, evs)).1.queue =
          processed ++ s.queue ++ submittedJobs acts ∧
        (acts.foldl (applyAct cfg) (s, evs)).2.filter isPlayEvent =
          (p2.filter playableJob).map Event.play := by
  intro acts
  induction acts with
  | nil =>
    intro s evs processed h
    exact ⟨processed, by simp [submittedJobs], h⟩
  | cons a r ih =>
    intro s evs processed h
    cases a with
    | submit j =>
      simp only [List.foldl_cons, applyAct, submittedJobs]
      obtain ⟨p2, h1, h2⟩ := ih
        {s with queue := s.queue ++ [j], log := s.log ++ [Event.dispatch j.text]}
        (evs ++ [Event.dispatch j.text]) processed
        (by rw [List.filter_append, h]; simp [isPlayEvent])
      refine ⟨p2, ?_, h2⟩
      rw [h1]
      simp [List.append_assoc]
    | tick =>
      simp only [List.foldl_cons, applyAct, submittedJobs]
      cases hq : s.queue with
      | nil =>
        have hstate : (workerStep cfg s).1.queue = [] := by
          cases hsp : s.speaking <;> simp [workerStep, hq, hsp]
        have hevs : (workerStep cfg s).2.filter isPlayEvent = [] := by
          cases hsp : s.speaking
          · simp [workerStep, hq, hsp]
          · cases hu : cfg.hasUnmute <;>
              simp [workerStep, hq, hsp, unmuteEvents, hu, isPlayEvent]
        obtain ⟨p2, h1, h2⟩ := ih (workerStep cfg s).1 (evs ++ (workerStep cfg s).2)
          processed (by rw [List.filter_append, hevs, h]; simp)
        refine ⟨p2, ?_, h2⟩
        rw [h1, hstate]
      | cons j rest =>
        have hstate : (workerStep cfg s).1.queue = rest := by
          simp [workerStep, hq]
        have hevs : (workerStep cfg s).2 = (iterStep cfg j s.speaking).2 := by
          simp [workerStep, hq]
        obtain ⟨p2, h1, h2⟩ := ih (workerStep cfg s).1 (evs ++ (workerStep cfg s).2)
          (processed ++ [j])
          (by
            rw [List.filter_append, h, hevs, iterStep_filter_play]
            by_cases hp : playableJob j <;>
              simp [List.filter_append, hp, List.filter_cons])
        refine ⟨p2, ?_, h2⟩
        rw [h1, hstate]
        simp [List.append_assoc]

/-- C1: playback order equals submission order.  For every interleaving of
submissions (`_queue_tts_generation`, which appends the job to the FIFO
queue at submission time) and playback-loop iterations (which always pop
the head and await it), the play events emitted so far are exactly the
order-preserving image of a prefix `processed` of the submitted jobs
(restricted to the jobs that yield a playable artifact), and the remaining
queue is the corresponding suffix.  Hence for phrases A and B submitted in
that order, B's artifact is never played before A's.  Jobs carry an
arbitrary ghost `finishTime`, so the statement holds regardless of which
generation completes first. -/
theorem c1_playback_order_is_submission_order (cfg : Config) (acts : List Act) :
    ∃ processed : List Job,
      processed ++ (runActs cfg acts).1.queue = submittedJobs acts ∧
      (runActs cfg acts).2.filter isPlayEvent =
        (processed.filter playableJob).map Event.play := by
  obtain ⟨p2, h1, h2⟩ := runActs_invariant cfg acts initState [] [] rfl
  refine ⟨p2, ?_, h2⟩
  rw [runActs] at *
  simpa [initState] using h1

/-! ## C3: the mute/unmute invariant -/

theorem reaches_speaking_mute (allowed : Job → Prop) :
    ∀ s : SysState, Reaches allowed s → s.speaking = true →
      lastHook s.log = some Event.muteCall := by
  intro s h
  induction h with
  | init => intro hsp; simp [initState] at hsp
  | submit s j ha hr ih =>
    intro hsp
    show lastHook (s.log ++ [Event.dispatch j.text]) = some Event.muteCall
    rw [lastHook_append]
    simp only [lastHook, isHookEvent]
    exact ih hsp
  | tick s hr ih =>
    intro hsp
    rcases hq : s.queue with _ | ⟨j, rest⟩
    · cases hsp2 : s.speaking <;> simp [workerStep, hq, hsp2] at hsp
    · cases hres : j.result with
      | artifact n ok =>
        by_cases hn : n < 100
        · simp [workerStep, hq, iterStep, hres, hn] at hsp
        · cases ok
          · simp [workerStep, hq, iterStep, hres, hn] at hsp
          · cases hsp2 : s.speaking <;>
              simp [workerStep, hq, iterStep, hres, hn, hsp2, mainConfig,
                unmuteEvents, muteEvents, lastHook_append, lastHook, isHookEvent]
      | cancelled => simp [workerStep, hq, iterStep, hres] at hsp
      | taskError => simp [workerStep, hq, iterStep, hres] at hsp
      | noAudio => simp [workerStep, hq, iterStep, hres] at hsp
      | fileMissing => simp [workerStep, hq, iterStep, hres] at hsp
  | intr s hr ih =>
    intro hsp
    simp [interruptRun, mainConfig] at hsp

theorem reaches_noPlayFail_invariant :
    ∀ s : SysState, Reaches noPlayFail s →
      (s.speaking = true ↔ lastHook s.log = some Event.muteCall) ∧ QueueNoPF s := by
  intro s h
  induction h with
  | init =>
    constructor
    · simp [initState, lastHook]
    · intro j hj; simp [initState] at hj
  | submit s j ha hr ih =>
    obtain ⟨ih1, ih2⟩ := ih
    constructor
    · show s.speaking = true ↔
        lastHook (s.log ++ [Event.dispatch j.text]) = some Event.muteCall
      rw [lastHook_append]
      simpa [lastHook, isHookEvent] using ih1
    · intro x hx
      rcases List.mem_append.mp hx with h1 | h1
      · exact ih2 x h1
      · have hxj : x = j := by simpa using h1
        rw [hxj]; exact ha
  | tick s hr ih =>
    obtain ⟨ih1, ih2⟩ := ih
    rcases hq : s.queue with _ | ⟨j, rest⟩
    · cases hsp : s.speaking
      · constructor
        · simpa [workerStep, hq, hsp] using ih1
        · intro x hx
          simp [workerStep, hq, hsp] at hx
      · constructor
        · simp [workerStep, hq, hsp, mainConfig, unmuteEvents, lastHook_append,
            lastHook, isHookEvent]
        · intro x hx
          simp [workerStep, hq, hsp] at hx
    · have hj : ∀ n, j.result ≠ JobResult.artifact n false :=
        ih2 j (by rw [hq]; exact List.mem_cons_self j rest)
      have hq2 : (workerStep mainConfig s).1.queue = rest := by simp [workerStep, hq]
      have hrest : QueueNoPF (workerStep mainConfig s).1 := by
        intro x hx
        rw [hq2] at hx
        exact ih2 x (by rw [hq]; exact List.mem_cons_of_mem j hx)
      refine ⟨?_, hrest⟩
      cases hres : j.result with
      | artifact n ok =>
        by_cases hn : n < 100
        · cases hsp : s.speaking
          · simp [workerStep, hq, iterStep, hres, hn, hsp]
            intro hm
            have him := ih1.mpr hm
            rw [hsp] at him
            exact absurd him Bool.false_ne_true
          · simp [workerStep, hq, iterStep, hres, hn, hsp, mainConfig, unmuteEvents,
              lastHook_append, lastHook, isHookEvent]
        · cases ok
          · exact absurd hres (hj n)
          · cases hsp : s.speaking <;>
              simp [workerStep, hq, iterStep, hres, hn, hsp, mainConfig, unmuteEvents,
                muteEvents, lastHook_append, lastHook, isHookEvent]
      | cancelled =>
        cases hsp : s.speaking
        · simp [workerStep, hq, iterStep, hres, hsp]
          intro hm
          have him := ih1.mpr hm
          rw [hsp] at him
          exact absurd him Bool.false_ne_true
        · simp [workerStep, hq, iterStep, hres, hsp, mainConfig, unmuteEvents,
            lastHook_append, lastHook, isHookEvent]
      | taskError =>
        cases hsp : s.speaking
        · simp [workerStep, hq, iterStep, hres, hsp]
          intro hm
          have him := ih1.mpr hm
          rw [hsp] at him
          exact absurd him Bool.false_ne_true
        · simp [workerStep, hq, iterStep, hres, hsp, mainConfig, unmuteEvents,
            lastHook_append, lastHook, isHookEvent]
      | noAudio =>
        cases hsp : s.speaking
        · simp [workerStep, hq, iterStep, hres, hsp]
          intro hm
          have him := ih1.mpr hm
          rw [hsp] at him
          exact absurd him Bool.false_ne_true
        · simp [workerStep, hq, iterStep, hres, hsp, mainConfig, unmuteEvents,
            lastHook_append, lastHook, isHookEvent]
      | fileMissing =>
        cases hsp : s.speaking
        · simp [workerStep, hq, iterStep, hres, hsp]
          intro hm
          have him := ih1.mpr hm
          rw [hsp] at him
          exact absurd him Bool.false_ne_true
        · simp [workerStep, hq, iterStep, hres, hsp, mainConfig, unmuteEvents,
            lastHook_append, lastHook, isHookEvent]
  | intr s hr ih =>
    constructor
    · simp [interruptRun, mainConfig, lastHook_append, lastHook, isHookEvent]
    · intro x hx
      simp [interruptRun, mainConfig] at hx
      intro n
      have hres : (mkJob gNone "").result = JobResult.noAudio := rfl
      rw [hx, hres]
      simp

/-- C3 counterexample: the claimed invariant fails on the
playback-failure branch.  Submitting one job whose artifact plays but
whose player subprocess raises leads, after a single loop iteration, to a
reachable state with `is_speaking == false` and an empty queue in which
the last hook invocation is the mute — no unmute has followed it, because
the failure branch resets the flag without unmuting and the next
iteration sees the flag already false. -/
theorem c3_playback_failure_breaks_invariant :
    Reaches univJob pfBadState ∧ pfBadState.speaking = false ∧
    pfBadState.queue = [] ∧ lastHook pfBadState.log = some Event.muteCall := by
  refine ⟨?_, by decide, by decide, by decide⟩
  exact Reaches.tick (pfSubmitted pfDemoJob)
    (Reaches.submit initState pfDemoJob trivial Reaches.init)

/-- C3 (amended): in every reachable state (any submissions), Speaking
implies the mute hook was invoked after the last unmute; and in every
state reachable without the playback-failure branch (no job whose
playback raises), Speaking == false with an empty queue implies the
unmute hook was invoked after the last mute.  The second half does not
extend to playback failures, as the counterexample shows. -/
theorem c3_mute_invariant_amended :
    (∀ (allowed : Job → Prop) (s : SysState), Reaches allowed s →
        s.speaking = true → lastHook s.log = some Event.muteCall) ∧
    (∀ s : SysState, Reaches noPlayFail s → s.speaking = false → s.queue = [] →
        lastHook s.log ≠ some Event.muteCall) := by
  constructor
  · exact reaches_speaking_mute
  · intro s h hsp _ hm
    have him := (reaches_noPlayFail_invariant s h).1.mpr hm
    rw [hsp] at him
    exact absurd him Bool.false_ne_true

/-- C3 witness: the amended invariant applied to the concrete reachable
state in which a 200-byte artifact has just played successfully. -/
theorem c3_mute_invariant_amended_witness :
    lastHook pfGoodState.log = some Event.muteCall :=
  c3_mute_invariant_amended.1 univJob pfGoodState
    (Reaches.tick (pfSubmitted pfGoodJob)
      (Reaches.submit initState pfGoodJob trivial Reaches.init))
    (by decide)
